import Mathlib

/-!
Verification of the RAG backend's core algorithms, shallowly embedded from
the Python sources (backend/app/utils/text_splitter.py,
backend/app/services/chat_service.py, backend/app/services/vector_service.py,
backend/app/services/document_service.py).

Text is modelled as List Char; Python string slicing, str.split and list
operations are embedded with the same semantics on the inputs the claims
quantify over.
-/

namespace RAG

/-! ## Segmenter: text_splitter.py -/

/-- Does the first list occur at the head of the second?  (The prefix test
used to locate separator occurrences.) -/
def leadsWith : List Char → List Char → Bool
  | [], _ => true
  | _ :: _, [] => false
  | a :: as, b :: bs => a == b && leadsWith as bs

/-- Python str.split(sep) on character lists (leftmost, non-overlapping
occurrences of sep; empty text gives one empty field).  The Nat argument is
recursion fuel; splitOn instantiates it with the text length, which always
suffices, so the wrapper agrees with Python for every input. -/
def splitOnF (sep : List Char) : Nat → List Char → List (List Char)
  | 0, text => [text]
  | _ + 1, [] => [[]]
  | fuel + 1, c :: rest =>
    if sep ≠ [] ∧ leadsWith sep (c :: rest) then
      [] :: splitOnF sep fuel ((c :: rest).drop sep.length)
    else
      match splitOnF sep fuel rest with
      | [] => [[c]]
      | s :: ss => (c :: s) :: ss

/-- Python text.split(sep) for nonempty sep (the source guards sep == ""). -/
def splitOn (sep text : List Char) : List (List Char) :=
  splitOnF sep text.length text

/-- sep ++ s₀ ++ sep ++ s₁ ++ ...: the glue part of rejoining split fields. -/
def preJoin (sep : List Char) : List (List Char) → List Char
  | [] => []
  | s :: rest => sep ++ (s ++ preJoin sep rest)

/-- Rejoin split fields with the separator (inverse of splitOn). -/
def joinSep (sep : List Char) : List (List Char) → List Char
  | [] => []
  | s :: rest => s ++ preJoin sep rest

/-- The character-level fallback of split_recursive:
[text[i : i + cs] for i in range(0, len(text), step)] with step = cs - ov.
Fuel version; charWindows instantiates fuel with the text length, which
suffices whenever step > 0 (for step = 0 Python's range raises). -/
def charWindowsF (cs step : Nat) : Nat → List Char → List (List Char)
  | 0, _ => []
  | _ + 1, [] => []
  | fuel + 1, c :: rest => (c :: rest).take cs :: charWindowsF cs step fuel ((c :: rest).drop step)

/-- Character-level fallback windows. -/
def charWindows (cs step : Nat) (text : List Char) : List (List Char) :=
  charWindowsF cs step text.length text

/-- test_chunk = current_chunk + (separator if current_chunk else "") + split
(text_splitter.py line 57). -/
def testChunk (sep cur s : List Char) : List Char :=
  cur ++ (if cur = [] then [] else sep) ++ s

/-- Append current_chunk to current_chunks when it is nonempty (the flush at
text_splitter.py lines 63-64 and 75-76). -/
def flushAcc (acc : List (List Char)) (cur : List Char) : List (List Char) :=
  if cur = [] then acc else acc ++ [cur]

/-- One step of the greedy accumulation loop in split_recursive
(text_splitter.py lines 55-72).  State: (current_chunks, current_chunk).
F is the recursive splitter for the remaining separator hierarchy. -/
def greedyStep (cs : Nat) (sep : List Char) (F : List Char → List (List Char))
    (st : List (List Char) × List Char) (s : List Char) : List (List Char) × List Char :=
  if (testChunk sep st.2 s).length ≤ cs then
    (st.1, testChunk sep st.2 s)
  else if cs < s.length then
    ((flushAcc st.1 st.2) ++ (F s).dropLast, ((F s).getLast?).getD [])
  else
    (flushAcc st.1 st.2, s)

/-- The greedy accumulation over all split fields, plus the final flush of a
nonempty current_chunk (text_splitter.py lines 52-78). -/
def greedy (cs : Nat) (sep : List Char) (F : List Char → List (List Char))
    (splits : List (List Char)) : List (List Char) :=
  let r := splits.foldl (greedyStep cs sep F) ([], [])
  flushAcc r.1 r.2

/-- cur :: r when cur is nonempty, else r: the pending current_chunk viewed
as part of the not-yet-flushed output (proof auxiliary). -/
def consIf (cur : List Char) (r : List (List Char)) : List (List Char) :=
  if cur = [] then r else cur :: r

/-- split_recursive(text, separators) from text_splitter.py: recurse through
the separator hierarchy; empty hierarchy or the "" separator fall back to
character windows advancing by cs - ov. -/
def split_recursive (cs ov : Nat) : List (List Char) → List Char → List (List Char)
  | [], text => charWindows cs (cs - ov) text
  | sep :: rest, text =>
    if sep = [] then charWindows cs (cs - ov) text
    else greedy cs sep (fun s => split_recursive cs ov rest s) (splitOn sep text)

/-- The fixed separator hierarchy ["\n\n", "\n", ". ", " ", ""]. -/
def separators : List (List Char) :=
  [['\n', '\n'], ['\n'], ['.', ' '], [' '], []]

/-- The ordered size-bounded units before the overlap pass (the units'
non-overlapping cores): initial_chunks in split_text_into_chunks, including
the early returns for empty and small texts. -/
def segmentCores (text : List Char) (cs ov : Nat) : List (List Char) :=
  if text = [] then []
  else if text.length ≤ cs then [text]
  else split_recursive cs ov separators text

/-- Python l[-n:] on character lists (for n = 0 Python yields the whole
list, since l[-0:] is l[0:]). -/
def pySuffix (n : Nat) (l : List Char) : List Char :=
  if n = 0 then l else l.drop (l.length - n)

/-- overlap_text of the overlap pass: prev_chunk[-ov:] if len(prev_chunk) > ov
else prev_chunk (text_splitter.py line 90). -/
def overlapText (ov : Nat) (prev : List Char) : List Char :=
  if ov < prev.length then pySuffix ov prev else prev

/-- The overlap pass (text_splitter.py lines 84-91): first unit unchanged,
every later unit prefixed with overlapText of the preceding core and a
single space. -/
def addOverlap (ov : Nat) : List (List Char) → List (List Char)
  | [] => []
  | c :: rest =>
    c :: List.zipWith (fun prev cur => overlapText ov prev ++ ' ' :: cur) (c :: rest) rest

/-- split_text_into_chunks(text, chunk_size, chunk_overlap): the Segmenter. -/
def split_text_into_chunks (text : List Char) (cs ov : Nat) : List (List Char) :=
  if text = [] then []
  else if text.length ≤ cs then [text]
  else addOverlap ov (split_recursive cs ov separators text)

/-! ## Chat service: chat_service.py -/

/-- A retrieved chunk as produced by VectorService.search_similar_chunks and
consumed by ChatService (chunk_id, document_id, filename, content,
similarity_score).  Scores are modelled as rationals. -/
structure RetrievedChunk where
  chunk_id : String
  document_id : String
  filename : String
  content : List Char
  similarity_score : ℚ
deriving DecidableEq

/-- The Source schema (models/schemas.py). -/
structure Source where
  chunk_id : String
  document_id : String
  filename : String
  content : List Char
  similarity_score : ℚ
deriving DecidableEq

/-- The ChatResponse schema (models/schemas.py); tokens_used defaults to
none. -/
structure ChatResponse where
  conversation_id : String
  answer : String
  sources : List Source
  model_used : String
  tokens_used : Option Nat
deriving DecidableEq

/-- settings.LLM_MODEL (config.py). -/
def llmModel : String := "gpt-4o-mini"

/-- The canned no-documents answer (chat_service.py line 120). -/
def noDocsAnswer : String :=
  "I don't have any documents to reference. Please upload some documents first."

/-- The truncation marker appended to previews longer than 200 characters. -/
def truncationMarker : List Char := ['.', '.', '.']

/-- conversation_id or str(uuid.uuid4()) (chat_service.py lines 112, 178):
Python's or takes the fresh id both when the caller passed None and when it
passed the falsy empty string.  freshId stands for the minted uuid. -/
def resolveConvId (conversationId : Option String) (freshId : String) : String :=
  match conversationId with
  | none => freshId
  | some s => if s = "" then freshId else s

/-- format_sources (chat_service.py lines 66-90): one Source per chunk, in
order, preview truncated to 200 characters plus marker only when longer. -/
def format_sources (chunks : List RetrievedChunk) : List Source :=
  chunks.map fun c =>
    { chunk_id := c.chunk_id
      document_id := c.document_id
      filename := c.filename
      content := if 200 < c.content.length then c.content.take 200 ++ truncationMarker
                 else c.content
      similarity_score := c.similarity_score }

/-- The outcome of the remote chat-completion call: message content (None is
possible) and optional token usage. -/
structure LLMSuccess where
  content : Option String
  usage : Option Nat
deriving DecidableEq

/-- generate_response (chat_service.py lines 92-155).  The two remote calls
are parameters: searchResult is the outcome of
vector_service.search_similar_chunks (its exception propagates un-caught),
llm the outcome of the OpenAI completion call (its exception is re-raised
wrapped).  freshId stands for the uuid minted on this request. -/
def generate_response (freshId : String) (conversationId : Option String) :
    Except String (List RetrievedChunk) → Except String LLMSuccess →
      Except String ChatResponse
  | .error e, _ => .error e
  | .ok chunks, llm =>
    if chunks.isEmpty then
      .ok { conversation_id := resolveConvId conversationId freshId
            answer := noDocsAnswer, sources := []
            model_used := llmModel, tokens_used := none }
    else
      match llm with
      | .error e => .error ("Failed to generate response: " ++ e)
      | .ok r =>
        .ok { conversation_id := resolveConvId conversationId freshId
              answer := r.content.getD ""
              sources := format_sources chunks, model_used := llmModel
              tokens_used := r.usage }

/-- The typed events of the streaming protocol (event: start/token/done/error
SSE frames of stream_response, with their structured payloads). -/
inductive SSEEvent where
  | start (conversation_id : String) (sources : List Source)
  | token (t : String)
  | done (model : String)
  | error (msg : String)
deriving DecidableEq

/-- The remote streaming generation call: the per-chunk delta contents it
yields (None possible), and the failure message if it raises after yielding
them (none = the stream ends normally).  A failure while creating the stream
is the case deltas = [] with a failure message. -/
structure StreamGen where
  deltas : List (Option String)
  failure : Option String
deriving DecidableEq

/-- The token events forwarded from the stream (chat_service.py lines
212-216): deltas that are None or the falsy "" are skipped. -/
def tokenEvents (deltas : List (Option String)) : List SSEEvent :=
  deltas.filterMap fun d =>
    match d with
    | some t => if t = "" then none else some (.token t)
    | none => none

/-- stream_response (chat_service.py lines 157-225) as the list of events it
yields: search failure or empty retrieval give a single error event; else a
start event with the resolved conversation id and the sources, the token
events, and done on normal end of stream or error if the stream raised. -/
def stream_response (freshId : String) (conversationId : Option String) :
    Except String (List RetrievedChunk) → StreamGen → List SSEEvent
  | .error e, _ => [.error e]
  | .ok chunks, gen =>
    if chunks.isEmpty then [.error "No documents available"]
    else
      SSEEvent.start (resolveConvId conversationId freshId) (format_sources chunks) ::
        (tokenEvents gen.deltas ++
          match gen.failure with
          | some e => [.error e]
          | none => [.done llmModel])

/-- Terminal events of the protocol. -/
def isTerminalEvent : SSEEvent → Bool
  | .done _ => true
  | .error _ => true
  | _ => false

/-- The payload of a token event. -/
def tokenPayload : SSEEvent → Option String
  | .token t => some t
  | _ => none

/-- Plain concatenation of a list of strings. -/
def concatStrings : List String → String
  | [] => ""
  | s :: rest => s ++ concatStrings rest

/-- Concatenation of the payloads of all token events of a run. -/
def concatTokens (evs : List SSEEvent) : String :=
  concatStrings (evs.filterMap tokenPayload)

/-- A deterministic generator stub: a fixed fragment sequence.  Its
non-streaming view returns the concatenated fragments as the answer text;
its streaming view yields the fragments one by one and ends normally. -/
structure GeneratorStub where
  frags : List String

/-- The stub's non-streaming completion outcome. -/
def stubComplete (g : GeneratorStub) (usage : Option Nat) : Except String LLMSuccess :=
  .ok { content := some (concatStrings g.frags), usage := usage }

/-- The stub's streaming outcome. -/
def stubStream (g : GeneratorStub) : StreamGen :=
  { deltas := g.frags.map some, failure := none }

/-! ## Vector service: vector_service.py -/

/-- One nearest-neighbour hit as returned by the Passage Store query
(id, metadata, document text, distance). -/
structure QueryHit where
  id : String
  document_id : String
  filename : String
  document : List Char
  distance : ℚ
deriving DecidableEq

/-- search_similar_chunks (vector_service.py lines 107-151): empty collection
returns [] before the query embedding is generated; otherwise the query
embedding outcome and the store query are consulted and each hit is mapped
with score = 1 - distance.  count is collection.count(); embedQuery the
Embedder outcome; queryStore the store's nearest-neighbour call. -/
def search_similar_chunks (count : Nat)
    (embedQuery : Except String (List ℚ))
    (queryStore : List ℚ → Except String (List QueryHit)) :
    Except String (List RetrievedChunk) :=
  if count = 0 then .ok []
  else
    match embedQuery with
    | .error e => .error ("Failed to search vector DB: " ++ e)
    | .ok emb =>
      match queryStore emb with
      | .error e => .error ("Failed to search vector DB: " ++ e)
      | .ok hits =>
        .ok (hits.map fun h =>
          { chunk_id := h.id, document_id := h.document_id, filename := h.filename
            content := h.document, similarity_score := 1 - h.distance })

/-! ## Document service: document_service.py -/

/-- The DocumentUploadResponse schema (file_type and uploaded_at kept as
strings). -/
structure DocumentUploadResponse where
  document_id : String
  filename : String
  file_type : String
  file_size : Nat
  chunks_created : Nat
  uploaded_at : String
deriving DecidableEq

/-- The UploadResult schema; all optional fields default to none. -/
structure UploadResult where
  success : Bool
  filename : String
  document_id : Option String := none
  file_type : Option String := none
  file_size : Option Nat := none
  chunks_created : Option Nat := none
  uploaded_at : Option String := none
  error : Option String := none
deriving DecidableEq

/-- One input file of a batch upload: its (optional) client filename and the
outcome process_single_document would produce for it (that call touches the
filesystem and the remote services, so its outcome is a parameter). -/
structure FileInput where
  filename : Option String
  outcome : Except String DocumentUploadResponse

/-- Python `file.filename or "unknown"` (document_service.py line 178):
None and the falsy empty string both map to "unknown". -/
def filenameOrUnknown : Option String → String
  | none => "unknown"
  | some s => if s = "" then "unknown" else s

/-- process_multiple_documents (document_service.py lines 139-183): each file
is processed independently; a success appends a success result, a failure
appends a failure result carrying the error, and the two counters are
returned with the per-file results. -/
def process_multiple_documents (files : List FileInput) :
    List UploadResult × Nat × Nat :=
  files.foldl
    (fun st file =>
      match file.outcome with
      | .ok r =>
        (st.1 ++ [{ success := true, filename := r.filename
                    document_id := some r.document_id, file_type := some r.file_type
                    file_size := some r.file_size, chunks_created := some r.chunks_created
                    uploaded_at := some r.uploaded_at }],
         st.2.1 + 1, st.2.2)
      | .error e =>
        (st.1 ++ [{ success := false, filename := filenameOrUnknown file.filename
                    error := some e }],
         st.2.1, st.2.2 + 1))
    ([], 0, 0)

/-- The prefix/suffix agreement predicate of the overlap-correctness claim,
read on a pair of adjacent produced units: the later unit's first
min(ov, |prev|) characters against the earlier unit's last that many. -/
def overlapAgrees (ov : Nat) (prev cur : List Char) : Bool :=
  cur.take (min ov prev.length) == prev.drop (prev.length - min ov prev.length)

/-- The overlap-correctness claim, as stated, on a produced sequence: every
unit after the first agrees (in the sense of overlapAgrees) with the unit
immediately preceding it in the returned sequence. -/
def overlapClaimHolds (ov : Nat) (chunks : List (List Char)) : Bool :=
  (chunks.zip chunks.tail).all fun pc => overlapAgrees ov pc.1 pc.2

/-! ## Lemmas: splitOn rejoins to the original text -/

theorem leadsWith_append (sep : List Char) :
    ∀ text, leadsWith sep text = true → sep ++ text.drop sep.length = text := by
  induction sep with
  | nil => intro text _; simp
  | cons a as ih =>
    intro text h
    cases text with
    | nil => simp [leadsWith] at h
    | cons b bs =>
      simp only [leadsWith, Bool.and_eq_true, beq_iff_eq] at h
      obtain ⟨hab, hlw⟩ := h
      simp only [List.length_cons, List.drop_succ_cons, List.cons_append, hab]
      exact congrArg (b :: ·) (ih bs hlw)

theorem splitOnF_ne_nil (sep : List Char) :
    ∀ fuel text, splitOnF sep fuel text ≠ [] := by
  intro fuel
  induction fuel with
  | zero => intro text; simp [splitOnF]
  | succ n ih =>
    intro text
    cases text with
    | nil => simp [splitOnF]
    | cons c rest =>
      rw [splitOnF]
      split
      · simp
      · cases h : splitOnF sep n rest <;> simp

theorem preJoin_eq_joinSep (sep : List Char) (s : List Char) (ss : List (List Char)) :
    preJoin sep (s :: ss) = sep ++ joinSep sep (s :: ss) := by
  simp [preJoin, joinSep]

theorem joinSep_splitOnF (sep : List Char) :
    ∀ fuel text, joinSep sep (splitOnF sep fuel text) = text := by
  intro fuel
  induction fuel with
  | zero => intro text; simp [splitOnF, joinSep, preJoin]
  | succ n ih =>
    intro text
    cases text with
    | nil => simp [splitOnF, joinSep, preJoin]
    | cons c rest =>
      rw [splitOnF]
      split
      · rename_i h
        obtain ⟨s, ss, hsub⟩ : ∃ s ss, splitOnF sep n ((c :: rest).drop sep.length) = s :: ss := by
          cases hx : splitOnF sep n ((c :: rest).drop sep.length) with
          | nil => exact absurd hx (splitOnF_ne_nil sep n _)
          | cons s ss => exact ⟨s, ss, rfl⟩
        have hj := ih ((c :: rest).drop sep.length)
        rw [hsub] at hj
        rw [hsub]
        show joinSep sep ([] :: s :: ss) = c :: rest
        have : joinSep sep ([] :: s :: ss) = sep ++ joinSep sep (s :: ss) := by
          simp [joinSep, preJoin]
        rw [this, hj]
        exact leadsWith_append sep (c :: rest) h.2
      · obtain ⟨s, ss, hsub⟩ : ∃ s ss, splitOnF sep n rest = s :: ss := by
          cases hx : splitOnF sep n rest with
          | nil => exact absurd hx (splitOnF_ne_nil sep n _)
          | cons s ss => exact ⟨s, ss, rfl⟩
        have hj := ih rest
        rw [hsub] at hj
        rw [hsub]
        show joinSep sep ((c :: s) :: ss) = c :: rest
        simp only [joinSep] at hj ⊢
        simp only [List.cons_append, hj]

theorem joinSep_splitOn (sep text : List Char) :
    joinSep sep (splitOn sep text) = text :=
  joinSep_splitOnF sep text.length text

/-! ## Lemmas: character-window fallback -/

theorem charWindowsF_mem_sublist (cs step : Nat) :
    ∀ fuel text w, w ∈ charWindowsF cs step fuel text → List.Sublist w text := by
  intro fuel
  induction fuel with
  | zero => intro text w hw; simp [charWindowsF] at hw
  | succ n ih =>
    intro text w hw
    cases text with
    | nil => simp [charWindowsF] at hw
    | cons c rest =>
      rw [charWindowsF] at hw
      rcases List.mem_cons.mp hw with h | h
      · exact h ▸ List.take_sublist cs (c :: rest)
      · exact (ih _ w h).trans (List.drop_sublist step (c :: rest))

theorem charWindowsF_mem_length (cs step : Nat) :
    ∀ fuel text w, w ∈ charWindowsF cs step fuel text → w.length ≤ cs := by
  intro fuel
  induction fuel with
  | zero => intro text w hw; simp [charWindowsF] at hw
  | succ n ih =>
    intro text w hw
    cases text with
    | nil => simp [charWindowsF] at hw
    | cons c rest =>
      rw [charWindowsF] at hw
      rcases List.mem_cons.mp hw with h | h
      · subst h; exact List.length_take_le cs (c :: rest)
      · exact ih _ w h

theorem charWindowsF_length (cs step : Nat) (hstep : 0 < step) :
    ∀ fuel text, text.length ≤ fuel →
      (charWindowsF cs step fuel text).length = (text.length + step - 1) / step := by
  intro fuel
  induction fuel with
  | zero =>
    intro text hlen
    have : text = [] := List.length_eq_zero.mp (Nat.le_zero.mp hlen)
    subst this
    simp [charWindowsF, Nat.div_eq_of_lt (by omega : step - 1 < step)]
  | succ n ih =>
    intro text hlen
    cases text with
    | nil => simp [charWindowsF, Nat.div_eq_of_lt (by omega : step - 1 < step)]
    | cons c rest =>
      rw [charWindowsF]
      have hdlen : ((c :: rest).drop step).length = (c :: rest).length - step := by
        simp
      have hle : ((c :: rest).drop step).length ≤ n := by
        rw [hdlen]
        simp only [List.length_cons] at hlen ⊢
        omega
      rw [List.length_cons, ih _ hle, hdlen]
      simp only [List.length_cons]
      have e2 : rest.length + 1 + step - 1 = rest.length + step := by omega
      rw [e2, Nat.add_div_right _ hstep]
      rcases Nat.lt_or_ge (rest.length + 1) step with hcase | hcase
      · have h1 : rest.length + 1 - step = 0 := by omega
        rw [h1]
        have h2 : (0 + step - 1) / step = 0 := Nat.div_eq_of_lt (by omega)
        have h3 : rest.length / step = 0 := Nat.div_eq_of_lt (by omega)
        omega
      · have e1 : rest.length + 1 - step + step - 1 = rest.length := by omega
        rw [e1]

/-! ## Lemmas: the greedy accumulation loop -/

theorem greedyStep_fits {cs : Nat} {sep : List Char} {F : List Char → List (List Char)}
    {acc : List (List Char)} {cur s : List Char}
    (h : (testChunk sep cur s).length ≤ cs) :
    greedyStep cs sep F (acc, cur) s = (acc, testChunk sep cur s) := by
  simp [greedyStep, h]

theorem greedyStep_recurse {cs : Nat} {sep : List Char} {F : List Char → List (List Char)}
    {acc : List (List Char)} {cur s : List Char}
    (h1 : ¬ (testChunk sep cur s).length ≤ cs) (h2 : cs < s.length) :
    greedyStep cs sep F (acc, cur) s =
      ((flushAcc acc cur) ++ (F s).dropLast, ((F s).getLast?).getD []) := by
  simp [greedyStep, h1, h2]

theorem greedyStep_move {cs : Nat} {sep : List Char} {F : List Char → List (List Char)}
    {acc : List (List Char)} {cur s : List Char}
    (h1 : ¬ (testChunk sep cur s).length ≤ cs) (h2 : ¬ cs < s.length) :
    greedyStep cs sep F (acc, cur) s = (flushAcc acc cur, s) := by
  simp [greedyStep, h1, h2]

theorem mem_flushAcc {acc : List (List Char)} {cur w : List Char}
    (hw : w ∈ flushAcc acc cur) : w ∈ acc ∨ (cur ≠ [] ∧ w = cur) := by
  unfold flushAcc at hw
  by_cases hc : cur = []
  · rw [if_pos hc] at hw; exact .inl hw
  · rw [if_neg hc] at hw
    rcases List.mem_append.mp hw with h | h
    · exact .inl h
    · exact .inr ⟨hc, List.mem_singleton.mp h⟩

theorem greedy_foldl_length (cs : Nat) (sep : List Char) (F : List Char → List (List Char))
    (hF : ∀ s w, w ∈ F s → w.length ≤ cs) :
    ∀ (splits acc : List (List Char)) (cur : List Char),
      (∀ w ∈ acc, w.length ≤ cs) → cur.length ≤ cs →
      (∀ w ∈ (splits.foldl (greedyStep cs sep F) (acc, cur)).1, w.length ≤ cs) ∧
        (splits.foldl (greedyStep cs sep F) (acc, cur)).2.length ≤ cs := by
  intro splits
  induction splits with
  | nil => intro acc cur hacc hcur; exact ⟨hacc, hcur⟩
  | cons s r ih =>
    intro acc cur hacc hcur
    have hflush : ∀ w ∈ flushAcc acc cur, w.length ≤ cs := by
      intro w hw
      rcases mem_flushAcc hw with h | h
      · exact hacc w h
      · exact h.2 ▸ hcur
    rw [List.foldl_cons]
    by_cases h1 : (testChunk sep cur s).length ≤ cs
    · rw [greedyStep_fits h1]
      exact ih acc _ hacc h1
    · by_cases h2 : cs < s.length
      · rw [greedyStep_recurse h1 h2]
        apply ih
        · intro w hw
          rcases List.mem_append.mp hw with h | h
          · exact hflush w h
          · exact hF s w ((List.dropLast_sublist (F s)).subset h)
        · cases hL : (F s).getLast? with
          | none => simp
          | some w =>
            simpa using hF s w (List.mem_of_mem_getLast? hL)
      · rw [greedyStep_move h1 h2]
        exact ih _ s hflush (by omega)

theorem greedy_length (cs : Nat) (sep : List Char) (F : List Char → List (List Char))
    (hF : ∀ s w, w ∈ F s → w.length ≤ cs) (splits : List (List Char)) :
    ∀ w ∈ greedy cs sep F splits, w.length ≤ cs := by
  intro w hw
  unfold greedy at hw
  obtain ⟨ha, hc⟩ := greedy_foldl_length cs sep F hF splits [] [] (by simp) (by simp)
  rcases mem_flushAcc hw with h | h
  · exact ha w h
  · exact h.2 ▸ hc

theorem split_recursive_length (cs ov : Nat) :
    ∀ (seps : List (List Char)) (text w : List Char),
      w ∈ split_recursive cs ov seps text → w.length ≤ cs := by
  intro seps
  induction seps with
  | nil =>
    intro text w hw
    exact charWindowsF_mem_length cs (cs - ov) text.length text w hw
  | cons sep rest ih =>
    intro text w hw
    rw [split_recursive] at hw
    by_cases hsep : sep = []
    · rw [if_pos hsep] at hw
      exact charWindowsF_mem_length cs (cs - ov) text.length text w hw
    · rw [if_neg hsep] at hw
      exact greedy_length cs sep _ (fun s u hu => ih s u hu) _ w hw

theorem segmentCores_length_le (text : List Char) (cs ov : Nat) :
    ∀ w ∈ segmentCores text cs ov, w.length ≤ cs := by
  intro w hw
  unfold segmentCores at hw
  split at hw
  · simp at hw
  · split at hw
    · rename_i hlen
      rw [List.mem_singleton] at hw
      exact hw ▸ hlen
    · exact split_recursive_length cs ov separators text w hw

/-! ## Lemmas: every produced core is a subsequence of the input -/

theorem joinSep_sublist_pre (sep : List Char) (r : List (List Char)) :
    List.Sublist (joinSep sep r) (preJoin sep r) := by
  cases r with
  | nil => simp [joinSep, preJoin]
  | cons s ss =>
    rw [preJoin_eq_joinSep]
    exact List.sublist_append_right sep _

theorem joinSep_consIf_mono {w s : List Char} (sep : List Char) (r : List (List Char))
    (h : List.Sublist w s) :
    List.Sublist (joinSep sep (consIf w r)) (joinSep sep (s :: r)) := by
  by_cases hw : w = []
  · subst hw
    rw [consIf, if_pos rfl]
    show List.Sublist (joinSep sep r) (s ++ preJoin sep r)
    exact (joinSep_sublist_pre sep r).trans (List.sublist_append_right s _)
  · rw [consIf, if_neg hw]
    show List.Sublist (w ++ preJoin sep r) (s ++ preJoin sep r)
    exact List.Sublist.append h (List.Sublist.refl _)

theorem joinSep_tail_le (sep cur s : List Char) (r : List (List Char)) :
    List.Sublist (joinSep sep (s :: r)) (joinSep sep (consIf cur (s :: r))) := by
  by_cases hc : cur = []
  · rw [consIf, if_pos hc]
  · rw [consIf, if_neg hc]
    show List.Sublist _ (cur ++ preJoin sep (s :: r))
    exact (joinSep_sublist_pre sep (s :: r)).trans (List.sublist_append_right cur _)

theorem cur_sublist_consIf (sep cur : List Char) (r : List (List Char)) (hc : cur ≠ []) :
    List.Sublist cur (joinSep sep (consIf cur r)) := by
  rw [consIf, if_neg hc]
  show List.Sublist cur (cur ++ preJoin sep r)
  exact List.sublist_append_left cur _

theorem head_sublist_joinSep (sep s : List Char) (r : List (List Char)) :
    List.Sublist s (joinSep sep (s :: r)) := by
  show List.Sublist s (s ++ preJoin sep r)
  exact List.sublist_append_left s _

theorem greedy_foldl_sublist (cs : Nat) (sep text : List Char)
    (F : List Char → List (List Char))
    (hF : ∀ s w, w ∈ F s → List.Sublist w s) :
    ∀ (splits acc : List (List Char)) (cur : List Char),
      (∀ w ∈ acc, List.Sublist w text) →
      List.Sublist (joinSep sep (consIf cur splits)) text →
      (∀ w ∈ (splits.foldl (greedyStep cs sep F) (acc, cur)).1, List.Sublist w text) ∧
        List.Sublist
          (joinSep sep (consIf (splits.foldl (greedyStep cs sep F) (acc, cur)).2 [])) text := by
  intro splits
  induction splits with
  | nil => intro acc cur hacc hinv; exact ⟨hacc, hinv⟩
  | cons s r ih =>
    intro acc cur hacc hinv
    have hsr : List.Sublist (joinSep sep (s :: r)) text :=
      (joinSep_tail_le sep cur s r).trans hinv
    have hs : List.Sublist s text := (head_sublist_joinSep sep s r).trans hsr
    have hflush : ∀ w ∈ flushAcc acc cur, List.Sublist w text := by
      intro w hw
      rcases mem_flushAcc hw with h | h
      · exact hacc w h
      · exact h.2 ▸ ((cur_sublist_consIf sep cur (s :: r) h.1).trans hinv)
    rw [List.foldl_cons]
    by_cases h1 : (testChunk sep cur s).length ≤ cs
    · rw [greedyStep_fits h1]
      apply ih acc (testChunk sep cur s) hacc
      by_cases hc : cur = []
      · subst hc
        have htest : testChunk sep [] s = s := by simp [testChunk]
        rw [htest]
        exact (joinSep_consIf_mono sep r (List.Sublist.refl s)).trans hsr
      · have hne : testChunk sep cur s ≠ [] := by
          simp [testChunk, hc]
        rw [consIf, if_neg hne]
        show List.Sublist (joinSep sep (testChunk sep cur s :: r)) text
        have hinv' : joinSep sep (consIf cur (s :: r)) = testChunk sep cur s ++ preJoin sep r := by
          rw [consIf, if_neg hc]
          show cur ++ preJoin sep (s :: r) = _
          simp [preJoin, testChunk, hc, List.append_assoc]
        show List.Sublist (testChunk sep cur s ++ preJoin sep r) text
        rw [← hinv']
        exact hinv
    · by_cases h2 : cs < s.length
      · rw [greedyStep_recurse h1 h2]
        apply ih
        · intro w hw
          rcases List.mem_append.mp hw with h | h
          · exact hflush w h
          · exact (hF s w ((List.dropLast_sublist (F s)).subset h)).trans hs
        · cases hL : (F s).getLast? with
          | none =>
            simp only [Option.getD_none]
            exact (joinSep_consIf_mono sep r (List.nil_sublist s)).trans hsr
          | some w =>
            simp only [Option.getD_some]
            exact (joinSep_consIf_mono sep r (hF s w (List.mem_of_mem_getLast? hL))).trans hsr
      · rw [greedyStep_move h1 h2]
        exact ih _ s hflush ((joinSep_consIf_mono sep r (List.Sublist.refl s)).trans hsr)

theorem greedy_sublist (cs : Nat) (sep text : List Char)
    (F : List Char → List (List Char))
    (hF : ∀ s w, w ∈ F s → List.Sublist w s) :
    ∀ w ∈ greedy cs sep F (splitOn sep text), List.Sublist w text := by
  intro w hw
  unfold greedy at hw
  obtain ⟨ha, hc⟩ := greedy_foldl_sublist cs sep text F hF (splitOn sep text) [] []
    (by simp)
    (by rw [consIf, if_pos rfl, joinSep_splitOn])
  rcases mem_flushAcc hw with h | h
  · exact ha w h
  · obtain ⟨hne, rfl⟩ := h
    rw [consIf, if_neg hne] at hc
    simpa [joinSep, preJoin] using hc

theorem split_recursive_sublist (cs ov : Nat) :
    ∀ (seps : List (List Char)) (text w : List Char),
      w ∈ split_recursive cs ov seps text → List.Sublist w text := by
  intro seps
  induction seps with
  | nil =>
    intro text w hw
    exact charWindowsF_mem_sublist cs (cs - ov) text.length text w hw
  | cons sep rest ih =>
    intro text w hw
    rw [split_recursive] at hw
    by_cases hsep : sep = []
    · rw [if_pos hsep] at hw
      exact charWindowsF_mem_sublist cs (cs - ov) text.length text w hw
    · rw [if_neg hsep] at hw
      exact greedy_sublist cs sep text _ (fun s u hu => ih s u hu) w hw

theorem segmentCores_sublist (text : List Char) (cs ov : Nat) :
    ∀ w ∈ segmentCores text cs ov, List.Sublist w text := by
  intro w hw
  unfold segmentCores at hw
  split at hw
  · simp at hw
  · split at hw
    · rw [List.mem_singleton] at hw
      exact hw ▸ List.Sublist.refl text
    · exact split_recursive_sublist cs ov separators text w hw

/-! ## Lemmas: the overlap pass -/

theorem split_text_eq_addOverlap (text : List Char) (cs ov : Nat) :
    split_text_into_chunks text cs ov = addOverlap ov (segmentCores text cs ov) := by
  unfold split_text_into_chunks segmentCores
  split
  · simp [addOverlap]
  · split
    · simp [addOverlap]
    · rfl

theorem addOverlap_head (ov : Nat) (l : List (List Char)) :
    (addOverlap ov l).head? = l.head? := by
  cases l <;> simp [addOverlap]

theorem addOverlap_get_succ {ov : Nat} {l : List (List Char)} {i : Nat} {prev cur : List Char}
    (hp : l[i]? = some prev) (hc : l[i + 1]? = some cur) :
    (addOverlap ov l)[i + 1]? = some (overlapText ov prev ++ ' ' :: cur) := by
  cases l with
  | nil => simp at hp
  | cons c rest =>
    rw [List.getElem?_cons_succ] at hc
    show (c :: List.zipWith _ (c :: rest) rest)[i + 1]? = _
    rw [List.getElem?_cons_succ, List.getElem?_zipWith, hp, hc]

theorem overlapText_eq_suffix {ov : Nat} (hov : 0 < ov) (prev : List Char) :
    overlapText ov prev = prev.drop (prev.length - min ov prev.length) := by
  unfold overlapText pySuffix
  by_cases h : ov < prev.length
  · rw [if_pos h, if_neg (by omega)]
    congr 1
    omega
  · rw [if_neg h]
    have hm : min ov prev.length = prev.length := by omega
    rw [hm]
    simp

theorem take_overlapUnit {ov : Nat} (hov : 0 < ov) (prev cur : List Char) :
    (overlapText ov prev ++ ' ' :: cur).take (min ov prev.length) =
      prev.drop (prev.length - min ov prev.length) := by
  have hlen : (overlapText ov prev).length = min ov prev.length := by
    rw [overlapText_eq_suffix hov, List.length_drop]
    omega
  calc (overlapText ov prev ++ ' ' :: cur).take (min ov prev.length)
      = (overlapText ov prev ++ ' ' :: cur).take ((overlapText ov prev).length) := by rw [hlen]
    _ = overlapText ov prev := List.take_left _ _
    _ = prev.drop (prev.length - min ov prev.length) := overlapText_eq_suffix hov prev

/-! ## Lemmas: streaming events -/

theorem tokenEvents_mem {deltas : List (Option String)} {ev : SSEEvent}
    (h : ev ∈ tokenEvents deltas) : ∃ t, ev = .token t := by
  unfold tokenEvents at h
  obtain ⟨d, _, hmap⟩ := List.mem_filterMap.mp h
  cases d with
  | none => simp at hmap
  | some t =>
    by_cases ht : t = ""
    · simp [ht] at hmap
    · simp only [ht, if_false, reduceCtorEq, Option.some_inj] at hmap
      exact ⟨t, hmap.symm⟩

theorem tokenEvents_countP_terminal (deltas : List (Option String)) :
    (tokenEvents deltas).countP isTerminalEvent = 0 := by
  rw [List.countP_eq_zero]
  intro ev hev
  obtain ⟨t, rfl⟩ := tokenEvents_mem hev
  simp [isTerminalEvent]

theorem concatTokens_tokenEvents (frags : List String) :
    concatStrings ((tokenEvents (frags.map some)).filterMap tokenPayload) =
      concatStrings frags := by
  induction frags with
  | nil => rfl
  | cons t rest ih =>
    by_cases ht : t = ""
    · subst ht
      have he : tokenEvents (List.map some ("" :: rest)) = tokenEvents (rest.map some) := by
        simp [tokenEvents]
      rw [List.map_cons] at he
      show concatStrings ((tokenEvents (some "" :: rest.map some)).filterMap tokenPayload) = _
      rw [he, ih]
      rfl
    · have he : tokenEvents (some t :: rest.map some) =
          SSEEvent.token t :: tokenEvents (rest.map some) := by
        simp [tokenEvents, ht]
      show concatStrings ((tokenEvents (some t :: rest.map some)).filterMap tokenPayload) = _
      rw [he]
      show t ++ concatStrings ((tokenEvents (rest.map some)).filterMap tokenPayload) =
        t ++ concatStrings rest
      rw [ih]

/-! ## Lemmas: batch upload accounting -/

/-- The per-file result process_multiple_documents records. -/
def uploadResultOf (file : FileInput) : UploadResult :=
  match file.outcome with
  | .ok r =>
    { success := true, filename := r.filename
      document_id := some r.document_id, file_type := some r.file_type
      file_size := some r.file_size, chunks_created := some r.chunks_created
      uploaded_at := some r.uploaded_at }
  | .error e =>
    { success := false, filename := filenameOrUnknown file.filename, error := some e }

/-- Did the file process successfully? -/
def isSuccessFile (file : FileInput) : Bool :=
  match file.outcome with
  | .ok _ => true
  | .error _ => false

theorem process_multiple_documents_eq (files : List FileInput) :
    ∀ (acc : List UploadResult) (s f : Nat),
      files.foldl
        (fun st file =>
          match file.outcome with
          | .ok r =>
            (st.1 ++ [{ success := true, filename := r.filename
                        document_id := some r.document_id, file_type := some r.file_type
                        file_size := some r.file_size, chunks_created := some r.chunks_created
                        uploaded_at := some r.uploaded_at }],
             st.2.1 + 1, st.2.2)
          | .error e =>
            (st.1 ++ [{ success := false, filename := filenameOrUnknown file.filename
                        error := some e }],
             st.2.1, st.2.2 + 1))
        (acc, s, f) =
      (acc ++ files.map uploadResultOf,
        s + files.countP isSuccessFile,
        f + files.countP fun x => ! isSuccessFile x) := by
  induction files with
  | nil => intro acc s f; simp
  | cons file rest ih =>
    intro acc s f
    rw [List.foldl_cons]
    cases ho : file.outcome with
    | ok r =>
      simp only [ho]
      rw [ih]
      simp [uploadResultOf, isSuccessFile, ho, List.countP_cons]
      omega
    | error e =>
      simp only [ho]
      rw [ih]
      simp [uploadResultOf, isSuccessFile, ho, List.countP_cons]
      omega

theorem countP_not_add (p : FileInput → Bool) (l : List FileInput) :
    l.countP p + l.countP (fun x => ! p x) = l.length := by
  induction l with
  | nil => rfl
  | cons a l ih =>
    rw [List.countP_cons, List.countP_cons]
    cases h : p a <;> simp [h] <;> omega

/-! ## The claims -/

/-- C3.  Segmentation size bound: for 0 < overlap < max_size, every unit's
un-overlapped core (its text before the overlap pass) has length at most
max_size; the emitted units are exactly the overlap pass applied to those
cores, so only the explicitly appended overlap text extends a later unit
beyond the bound. -/
theorem segmentation_size_bound (text : List Char) (cs ov : Nat)
    (_h1 : 0 < ov) (_h2 : ov < cs) :
    (∀ core ∈ segmentCores text cs ov, core.length ≤ cs) ∧
      split_text_into_chunks text cs ov = addOverlap ov (segmentCores text cs ov) :=
  ⟨segmentCores_length_le text cs ov, split_text_eq_addOverlap text cs ov⟩

theorem segmentation_size_bound_witness :
    (∀ core ∈ segmentCores (String.toList "ab\n\ncd") 3 1, core.length ≤ 3) ∧
      split_text_into_chunks (String.toList "ab\n\ncd") 3 1 =
        addOverlap 1 (segmentCores (String.toList "ab\n\ncd") 3 1) :=
  segmentation_size_bound (String.toList "ab\n\ncd") 3 1 (by decide) (by decide)

/-- C1 counterexample.  At text "ab\n\ncd" with max_size 3 and overlap 1
(valid parameters) the produced units' cores are "ab" and "cd": the
separator "\n\n" is dropped at the unit boundary, so concatenating the
cores does not reconstruct the original text. -/
theorem segmentation_totality_counterexample :
    0 < 1 ∧ 1 < 3 ∧
      (segmentCores (String.toList "ab\n\ncd") 3 1).flatten ≠ String.toList "ab\n\ncd" := by
  refine ⟨by decide, by decide, ?_⟩
  decide

/-- C1 amended.  Concatenating the cores need not reconstruct the original
text (separator occurrences at unit boundaries are dropped, and character
fallback windows repeat overlapped characters); what does hold is that no
content is fabricated out of order: every produced core is a subsequence of
the original text. -/
theorem segmentation_totality_amended (text : List Char) (cs ov : Nat)
    (_h1 : 0 < ov) (_h2 : ov < cs) :
    ∀ core ∈ segmentCores text cs ov, List.Sublist core text :=
  segmentCores_sublist text cs ov

theorem segmentation_totality_amended_witness :
    List.Sublist (String.toList "ab") (String.toList "ab\n\ncd") :=
  segmentation_totality_amended (String.toList "ab\n\ncd") 3 1 (by decide) (by decide)
    (String.toList "ab") (by decide)

/-- C9.  Segmenter termination: the embedding is total by construction (the
recursion of split_recursive is structural on the finite separator
hierarchy), and the character-level fallback makes progress: with
0 < overlap < max_size its window start advances by max_size - overlap > 0,
producing exactly ceil(len / (max_size - overlap)) windows; the exhausted
hierarchy indeed lands in that fallback. -/
theorem segmenter_termination (text : List Char) (cs ov : Nat)
    (_h1 : 0 < ov) (h2 : ov < cs) :
    (charWindows cs (cs - ov) text).length = (text.length + (cs - ov) - 1) / (cs - ov) ∧
      split_recursive cs ov [] text = charWindows cs (cs - ov) text :=
  ⟨charWindowsF_length cs (cs - ov) (by omega) text.length text le_rfl, rfl⟩

theorem segmenter_termination_witness :
    (charWindows 3 (3 - 1) (String.toList "abcdefg")).length =
        ((String.toList "abcdefg").length + (3 - 1) - 1) / (3 - 1) ∧
      split_recursive 3 1 [] (String.toList "abcdefg") =
        charWindows 3 (3 - 1) (String.toList "abcdefg") :=
  segmenter_termination (String.toList "abcdefg") 3 1 (by decide) (by decide)

/-- C4 counterexample.  At text "aaaa\n\nbb\n\ncc" with max_size 5 and
overlap 3 the produced units are "aaaa", "aaa bb", "bb cc": the third
unit's first min(overlap, |predecessor|) characters are "bb ", while the
predecessor unit "aaa bb" ends in " bb" — the overlap prefix is drawn from
the predecessor's core, not from the predecessor unit itself, so the claim
as stated fails. -/
theorem overlap_correctness_counterexample :
    0 < 3 ∧ 3 < 5 ∧
      overlapClaimHolds 3
          (split_text_into_chunks (String.toList "aaaa\n\nbb\n\ncc") 5 3) = false := by
  refine ⟨by decide, by decide, ?_⟩
  decide

/-- C4 amended.  The first unit is emitted unchanged, and every later unit
is the trailing overlap characters of the immediately preceding unit's CORE
(or the whole core when it is shorter than overlap) joined to its own core
with a single space; consequently its prefix of length
min(overlap, |preceding core|) equals the preceding core's suffix of that
length. -/
theorem overlap_correctness_amended (text : List Char) (cs ov i : Nat)
    (prev cur : List Char) (h1 : 0 < ov) (_h2 : ov < cs) :
    (split_text_into_chunks text cs ov).head? = (segmentCores text cs ov).head? ∧
      ((segmentCores text cs ov)[i]? = some prev →
        (segmentCores text cs ov)[i + 1]? = some cur →
        (split_text_into_chunks text cs ov)[i + 1]? =
            some (overlapText ov prev ++ ' ' :: cur) ∧
          (overlapText ov prev ++ ' ' :: cur).take (min ov prev.length) =
            prev.drop (prev.length - min ov prev.length)) := by
  constructor
  · rw [split_text_eq_addOverlap, addOverlap_head]
  · intro hp hc
    refine ⟨?_, take_overlapUnit h1 prev cur⟩
    rw [split_text_eq_addOverlap]
    exact addOverlap_get_succ hp hc

theorem overlap_correctness_amended_witness :
    (split_text_into_chunks (String.toList "aaaa\n\nbb\n\ncc") 5 3)[1]? =
        some (overlapText 3 (String.toList "aaaa") ++ ' ' :: String.toList "bb") ∧
      (overlapText 3 (String.toList "aaaa") ++ ' ' :: String.toList "bb").take
          (min 3 (String.toList "aaaa").length) =
        (String.toList "aaaa").drop
          ((String.toList "aaaa").length - min 3 (String.toList "aaaa").length) :=
  (overlap_correctness_amended (String.toList "aaaa\n\nbb\n\ncc") 5 3 0
      (String.toList "aaaa") (String.toList "bb") (by decide) (by decide)).2
    (by decide) (by decide)

/-- C2.  Streaming protocol: every event sequence has exactly one terminal
event and it is the last event; empty retrieval yields a single error event
and nothing else; a successful run is exactly one start event (with the
resolved conversation id and the full citation list, before any token),
then token events, then one done event; a mid-stream failure replaces the
done with a single error; only token events sit between start and terminal;
and no done event ever follows an error event. -/
theorem stream_protocol (freshId : String) (conversationId : Option String)
    (searchResult : Except String (List RetrievedChunk)) (gen : StreamGen) :
    ((stream_response freshId conversationId searchResult gen).countP isTerminalEvent = 1 ∧
      ∃ e, (stream_response freshId conversationId searchResult gen).getLast? = some e ∧
        isTerminalEvent e = true) ∧
    (searchResult = .ok [] →
      stream_response freshId conversationId searchResult gen =
        [.error "No documents available"]) ∧
    (∀ chunks, searchResult = .ok chunks → chunks ≠ [] → gen.failure = none →
      stream_response freshId conversationId searchResult gen =
        .start (resolveConvId conversationId freshId) (format_sources chunks) ::
          (tokenEvents gen.deltas ++ [.done llmModel])) ∧
    (∀ chunks e, searchResult = .ok chunks → chunks ≠ [] → gen.failure = some e →
      stream_response freshId conversationId searchResult gen =
        .start (resolveConvId conversationId freshId) (format_sources chunks) ::
          (tokenEvents gen.deltas ++ [.error e])) ∧
    (∀ ev ∈ tokenEvents gen.deltas, ∃ t, ev = SSEEvent.token t) ∧
    (∀ (i j : Nat) (ei mj : String), i < j →
      (stream_response freshId conversationId searchResult gen)[i]? =
          some (SSEEvent.error ei) →
      (stream_response freshId conversationId searchResult gen)[j]? ≠
          some (SSEEvent.done mj)) := by
  cases searchResult with
  | error e =>
    have hevs : stream_response freshId conversationId (Except.error e) gen =
        [.error e] := rfl
    rw [hevs]
    refine ⟨⟨by simp [isTerminalEvent], ⟨.error e, by simp, by simp [isTerminalEvent]⟩⟩,
      ?_, ?_, ?_, fun ev hev => tokenEvents_mem hev, ?_⟩
    · intro h; exact absurd h (by simp)
    · intro chunks h; exact absurd h (by simp)
    · intro chunks e' h; exact absurd h (by simp)
    · intro i j ei mj hij hi hj
      have hm := List.getElem?_mem hj
      simp at hm
  | ok chunks =>
    by_cases hemp : chunks.isEmpty = true
    · have hnil : chunks = [] := List.isEmpty_iff.mp hemp
      subst hnil
      have hevs : stream_response freshId conversationId (Except.ok []) gen =
          [.error "No documents available"] := rfl
      rw [hevs]
      refine ⟨⟨by simp [isTerminalEvent],
          ⟨.error "No documents available", by simp, by simp [isTerminalEvent]⟩⟩,
        fun _ => rfl, ?_, ?_, fun ev hev => tokenEvents_mem hev, ?_⟩
      · intro chunks' h hne
        exact absurd (Except.ok.inj h).symm hne
      · intro chunks' e' h hne
        exact absurd (Except.ok.inj h).symm hne
      · intro i j ei mj hij hi hj
        have hm := List.getElem?_mem hj
        simp at hm
    · have hne : chunks ≠ [] := by
        intro h; subst h; exact hemp rfl
      have hemp' : chunks.isEmpty = false := by
        simpa using hemp
      cases hfail : gen.failure with
      | none =>
        have hevs : stream_response freshId conversationId (Except.ok chunks) gen =
            .start (resolveConvId conversationId freshId) (format_sources chunks) ::
              (tokenEvents gen.deltas ++ [.done llmModel]) := by
          simp [stream_response, hemp', hfail]
        rw [hevs]
        refine ⟨⟨?_, ?_⟩, ?_, ?_, ?_, fun ev hev => tokenEvents_mem hev, ?_⟩
        · rw [List.countP_cons, List.countP_append, tokenEvents_countP_terminal]
          simp [isTerminalEvent]
        · refine ⟨.done llmModel, ?_, by simp [isTerminalEvent]⟩
          rw [← List.cons_append]
          exact List.getLast?_concat _
        · intro h
          exact absurd (Except.ok.inj h) hne
        · intro chunks' h _ _
          obtain rfl := Except.ok.inj h
          rfl
        · intro chunks' e' h _ hf
          exact absurd hf (by simp)
        · intro i j ei mj hij hi hj
          have hm := List.getElem?_mem hi
          rcases List.mem_cons.mp hm with h | h
          · exact absurd h (by simp)
          · rcases List.mem_append.mp h with h | h
            · obtain ⟨t, ht⟩ := tokenEvents_mem h
              exact absurd ht (by simp)
            · exact absurd h (by simp)
      | some e =>
        have hevs : stream_response freshId conversationId (Except.ok chunks) gen =
            .start (resolveConvId conversationId freshId) (format_sources chunks) ::
              (tokenEvents gen.deltas ++ [.error e]) := by
          simp [stream_response, hemp', hfail]
        rw [hevs]
        refine ⟨⟨?_, ?_⟩, ?_, ?_, ?_, fun ev hev => tokenEvents_mem hev, ?_⟩
        · rw [List.countP_cons, List.countP_append, tokenEvents_countP_terminal]
          simp [isTerminalEvent]
        · refine ⟨.error e, ?_, by simp [isTerminalEvent]⟩
          rw [← List.cons_append]
          exact List.getLast?_concat _
        · intro h
          exact absurd (Except.ok.inj h) hne
        · intro chunks' h _ hf
          exact absurd hf (by simp)
        · intro chunks' e' h _ hf
          obtain rfl := Option.some_inj.mp hf
          obtain rfl := Except.ok.inj h
          rfl
        · intro i j ei mj hij hi hj
          have hm := List.getElem?_mem hj
          rcases List.mem_cons.mp hm with h | h
          · exact absurd h (by simp)
          · rcases List.mem_append.mp h with h | h
            · obtain ⟨t, ht⟩ := tokenEvents_mem h
              exact absurd ht (by simp)
            · exact absurd h (by simp)

theorem stream_protocol_witness :
    let chunks : List RetrievedChunk :=
      [{ chunk_id := "d_chunk_0", document_id := "d", filename := "a.txt"
         content := String.toList "hello", similarity_score := 1 }]
    let gen : StreamGen := { deltas := [some "hi", none, some ""], failure := none }
    stream_response "f" none (Except.ok chunks) gen =
      .start "f" (format_sources chunks) :: (tokenEvents gen.deltas ++ [.done llmModel]) := by
  intro chunks gen
  exact (stream_protocol "f" none (Except.ok chunks) gen).2.2.1 chunks rfl
    (by decide) rfl

/-- C5.  Streaming reconstruction: with a deterministic generator stub whose
complete answer is the concatenation of the fragments its stream yields,
concatenating the payloads of all token events of a successful
compose_stream run equals the answer_text of the non-streaming compose for
the same inputs. -/
theorem streaming_reconstruction (freshId : String) (conversationId : Option String)
    (chunks : List RetrievedChunk) (g : GeneratorStub) (usage : Option Nat)
    (hne : chunks ≠ []) :
    ∃ resp, generate_response freshId conversationId (.ok chunks) (stubComplete g usage) =
        .ok resp ∧
      concatTokens (stream_response freshId conversationId (.ok chunks) (stubStream g)) =
        resp.answer := by
  have hemp : chunks.isEmpty = false := by
    cases chunks with
    | nil => exact absurd rfl hne
    | cons c cr => rfl
  have hgen : generate_response freshId conversationId (.ok chunks) (stubComplete g usage) =
      .ok { conversation_id := resolveConvId conversationId freshId
            answer := concatStrings g.frags, sources := format_sources chunks
            model_used := llmModel, tokens_used := usage } := by
    simp [generate_response, stubComplete, hemp]
  have hstream : stream_response freshId conversationId (.ok chunks) (stubStream g) =
      .start (resolveConvId conversationId freshId) (format_sources chunks) ::
        (tokenEvents (g.frags.map some) ++ [.done llmModel]) := by
    simp [stream_response, stubStream, hemp]
  refine ⟨_, hgen, ?_⟩
  rw [hstream]
  show concatStrings (List.filterMap tokenPayload
      (.start (resolveConvId conversationId freshId) (format_sources chunks) ::
        (tokenEvents (g.frags.map some) ++ [.done llmModel]))) = concatStrings g.frags
  rw [List.filterMap_cons, List.filterMap_append]
  show concatStrings ((tokenEvents (g.frags.map some)).filterMap tokenPayload ++ []) = _
  rw [List.append_nil]
  exact concatTokens_tokenEvents g.frags

theorem streaming_reconstruction_witness :
    ∃ resp,
      generate_response "f" none
          (Except.ok [{ chunk_id := "d_chunk_0", document_id := "d", filename := "a.txt"
                        content := String.toList "hello", similarity_score := 1 }])
          (stubComplete { frags := ["an", "", "swer"] } (some 7)) = Except.ok resp ∧
        concatTokens (stream_response "f" none
            (Except.ok [{ chunk_id := "d_chunk_0", document_id := "d", filename := "a.txt"
                          content := String.toList "hello", similarity_score := 1 }])
            (stubStream { frags := ["an", "", "swer"] })) = resp.answer :=
  streaming_reconstruction "f" none _ { frags := ["an", "", "swer"] } (some 7) (by decide)

/-- C6.  Citation fidelity: format_sources returns one citation per passage
in the same order; its preview equals the first 200 characters plus the
marker exactly when the original is longer than 200 characters, and equals
the original text exactly otherwise — text of length at most 200 is never
truncated. -/
theorem citation_fidelity (chunks : List RetrievedChunk) :
    (format_sources chunks).length = chunks.length ∧
      ∀ (i : Nat) (c : RetrievedChunk), chunks[i]? = some c →
        (format_sources chunks)[i]? = some
            { chunk_id := c.chunk_id, document_id := c.document_id
              filename := c.filename
              content := if 200 < c.content.length then c.content.take 200 ++ truncationMarker
                         else c.content
              similarity_score := c.similarity_score } ∧
          (c.content.length ≤ 200 →
            (format_sources chunks)[i]? = some
              { chunk_id := c.chunk_id, document_id := c.document_id
                filename := c.filename, content := c.content
                similarity_score := c.similarity_score }) ∧
          ∀ (s : Source), (format_sources chunks)[i]? = some s →
            (s.content = c.content.take 200 ++ truncationMarker ↔ 200 < c.content.length) := by
  constructor
  · simp [format_sources]
  · intro i c hc
    have hmap : (format_sources chunks)[i]? = some
        { chunk_id := c.chunk_id, document_id := c.document_id
          filename := c.filename
          content := if 200 < c.content.length then c.content.take 200 ++ truncationMarker
                     else c.content
          similarity_score := c.similarity_score } := by
      unfold format_sources
      rw [List.getElem?_map, hc]
      rfl
    refine ⟨hmap, ?_, ?_⟩
    · intro hle
      have hif : (if 200 < c.content.length then c.content.take 200 ++ truncationMarker
          else c.content) = c.content := if_neg (by omega)
      rw [hmap, hif]
    · intro s hs
      rw [hmap] at hs
      obtain rfl := (Option.some_inj.mp hs).symm
      constructor
      · intro heq
        by_contra hnot
        push_neg at hnot
        have hif : (if 200 < c.content.length then c.content.take 200 ++ truncationMarker
            else c.content) = c.content := if_neg (by omega)
        rw [hif] at heq
        have hlen := congrArg List.length heq
        rw [List.length_append, List.length_take] at hlen
        simp [truncationMarker] at hlen
        omega
      · intro hgt
        show (if 200 < c.content.length then c.content.take 200 ++ truncationMarker
            else c.content) = c.content.take 200 ++ truncationMarker
        exact if_pos hgt

theorem citation_fidelity_witness :
    let c : RetrievedChunk :=
      { chunk_id := "d_chunk_0", document_id := "d", filename := "a.txt"
        content := String.toList "short text", similarity_score := 1 }
    (format_sources [c])[0]? = some
      { chunk_id := c.chunk_id, document_id := c.document_id, filename := c.filename
        content := c.content, similarity_score := c.similarity_score } := by
  intro c
  exact ((citation_fidelity [c]).2 0 c rfl).2.1 (by decide)

/-- C7.  Empty-store retrieval: against an empty Passage Store
(count() == 0) the search returns the empty list as a normal result for
every query-embedding outcome and every store behaviour — in particular it
does not depend on (and so never invokes) the Embedder, and no error is
produced. -/
theorem empty_store_retrieval (embedQuery : Except String (List ℚ))
    (queryStore : List ℚ → Except String (List QueryHit)) :
    search_similar_chunks 0 embedQuery queryStore = .ok [] := rfl

/-- C8 counterexample.  With retrieved passages empty and the caller
supplying the conversation id "" (a value the request schema admits),
generate_response does not return the supplied id verbatim: Python's
`conversation_id or str(uuid.uuid4())` treats the falsy empty string as
absent and substitutes the freshly minted id. -/
theorem compose_empty_counterexample :
    ¬ ∀ resp, generate_response "fresh" (some "") (Except.ok []) (Except.ok ⟨none, none⟩) =
        Except.ok resp → resp.conversation_id = "" := by
  intro h
  have := h { conversation_id := "fresh", answer := noDocsAnswer, sources := []
              model_used := llmModel, tokens_used := none } rfl
  exact absurd this (by decide)

/-- C8 amended.  With empty retrieved passages compose returns the canned
no-documents answer with an empty citation list, independently of the
remote generator (no generation call is made); the returned conversation id
is the caller-supplied one verbatim whenever it is supplied non-empty,
and a freshly minted id when it is absent or empty. -/
theorem compose_empty_amended (freshId : String) (conversationId : Option String)
    (llm llm' : Except String LLMSuccess) :
    generate_response freshId conversationId (.ok []) llm =
        .ok { conversation_id := resolveConvId conversationId freshId
              answer := noDocsAnswer, sources := [], model_used := llmModel
              tokens_used := none } ∧
      generate_response freshId conversationId (.ok []) llm =
        generate_response freshId conversationId (.ok []) llm' ∧
      (∀ s, s ≠ "" → resolveConvId (some s) freshId = s) ∧
      resolveConvId none freshId = freshId ∧
      resolveConvId (some "") freshId = freshId := by
  refine ⟨rfl, rfl, ?_, rfl, rfl⟩
  intro s hs
  simp [resolveConvId, hs]

theorem compose_empty_amended_witness :
    generate_response "f1" (some "c9") (Except.ok []) (Except.ok ⟨some "x", none⟩) =
      Except.ok { conversation_id := "c9", answer := noDocsAnswer, sources := []
                  model_used := llmModel, tokens_used := none } := by
  have h := compose_empty_amended "f1" (some "c9")
    (Except.ok ⟨some "x", none⟩) (Except.ok ⟨none, none⟩)
  rw [h.1, h.2.2.1 "c9" (by decide)]

/-- C10.  Batch-upload accounting: process_multiple_documents returns
exactly one result per input file, in input order; each result is a success
exactly when its file's processing succeeded (success and carried error are
mutually exclusive); the success and failure counters sum to the number of
input files; and each file's result depends only on its own outcome, so one
file's failure does not prevent processing of the remaining files. -/
theorem batch_upload_accounting (files : List FileInput) :
    (process_multiple_documents files).1.length = files.length ∧
      (process_multiple_documents files).2.1 + (process_multiple_documents files).2.2 =
        files.length ∧
      ∀ (i : Nat) (fi : FileInput), files[i]? = some fi →
        ∃ (res : UploadResult), (process_multiple_documents files).1[i]? = some res ∧
          (∀ (r : DocumentUploadResponse), fi.outcome = Except.ok r →
            res = { success := true, filename := r.filename
                    document_id := some r.document_id, file_type := some r.file_type
                    file_size := some r.file_size, chunks_created := some r.chunks_created
                    uploaded_at := some r.uploaded_at, error := none }) ∧
          (∀ (e : String), fi.outcome = Except.error e →
            res = { success := false, filename := filenameOrUnknown fi.filename
                    error := some e }) ∧
          (res.success = true ↔ res.error = none) := by
  have heq : process_multiple_documents files =
      (files.map uploadResultOf, files.countP isSuccessFile,
        files.countP fun x => ! isSuccessFile x) := by
    unfold process_multiple_documents
    simpa using process_multiple_documents_eq files [] 0 0
  rw [heq]
  refine ⟨by simp, countP_not_add isSuccessFile files, ?_⟩
  intro i fi hfi
  refine ⟨uploadResultOf fi, ?_, ?_, ?_, ?_⟩
  · rw [List.getElem?_map, hfi]
    rfl
  · intro r hr
    simp [uploadResultOf, hr]
  · intro e he
    simp [uploadResultOf, he]
  · cases ho : fi.outcome <;> simp [uploadResultOf, ho]

theorem batch_upload_accounting_witness :
    ∃ res,
      (process_multiple_documents
          [{ filename := some "", outcome := Except.error "boom" },
           { filename := some "b.txt",
             outcome := Except.ok { document_id := "d", filename := "b.txt"
                                    file_type := "txt", file_size := 3
                                    chunks_created := 1, uploaded_at := "t" } }]).1[0]? =
        some res ∧
        (∀ r, (Except.error "boom" : Except String DocumentUploadResponse) = .ok r →
          res = { success := true, filename := r.filename
                  document_id := some r.document_id, file_type := some r.file_type
                  file_size := some r.file_size, chunks_created := some r.chunks_created
                  uploaded_at := some r.uploaded_at, error := none }) ∧
        (∀ e, (Except.error "boom" : Except String DocumentUploadResponse) = .error e →
          res = { success := false, filename := filenameOrUnknown (some "")
                  error := some e }) ∧
        (res.success = true ↔ res.error = none) :=
  (batch_upload_accounting
      [{ filename := some "", outcome := Except.error "boom" },
       { filename := some "b.txt",
         outcome := Except.ok { document_id := "d", filename := "b.txt"
                                file_type := "txt", file_size := 3
                                chunks_created := 1, uploaded_at := "t" } }]).2.2 0
    { filename := some "", outcome := Except.error "boom" } rfl

end RAG
